import Mathlib

/-!
Verification of the MeteoInfoLab `meteo` module
(`src/pylib/mipylib/meteolib/meteo.py`).

The scalar thermodynamic formulas are embedded as functions over `ℝ`
(the source computes with floating point; "within floating-point
tolerance" statements are settled as exact real identities or explicit
rational bounds).  The EOF and varimax engines are embedded over `ℚ`
with the linear-algebra collaborator (eigendecomposition / SVD) kept
abstract, exactly as the spec scopes it out.
-/

namespace Meteo

noncomputable section ScalarFormulas

/-- Module constant `P0 = 1000.` (meteo.py line 14). -/
def P0 : ℝ := 1000

/-- Module constant `R = 8.3144598` (line 15). -/
def R : ℝ := 8.3144598

/-- Module constant `Mw = 18.01528` (line 16). -/
def Mw : ℝ := 18.01528

/-- Module constant `Md = 28.9644` (line 17). -/
def Md : ℝ := 28.9644

/-- Module constant `Rd = R / Md` (line 18). -/
def Rd : ℝ := R / Md

/-- Module constant `epsilon = Mw / Md` (line 21). -/
def epsilon : ℝ := Mw / Md

/-- Module constant `kappa = 0.286` (line 22). -/
def kappa : ℝ := 0.286

/-- Module constant `g = 9.8` (line 24). -/
def g : ℝ := 9.8

/-- Module constant `sat_pressure_0c = 6.112` (line 25). -/
def sat_pressure_0c : ℝ := 6.112

/-- `pressure_to_height_std` (lines 92-104):
`h = (t0 / gamma) * (1 - (press / p0) ** (Rd * gamma / g)) * 1000`
with `t0 = 288., gamma = 6.5, p0 = 1013.25`. -/
def pressure_to_height_std (press : ℝ) : ℝ :=
  let t0 : ℝ := 288
  let gamma : ℝ := 6.5
  let p0 : ℝ := 1013.25
  (t0 / gamma) * (1 - (press / p0) ^ (Rd * gamma / g)) * 1000

/-- `height_to_pressure_std` (lines 122-135):
`height = height * 0.001; p = p0 * (1 - (gamma / t0) * height) ** (g / (Rd * gamma))`. -/
def height_to_pressure_std (height : ℝ) : ℝ :=
  let t0 : ℝ := 288
  let gamma : ℝ := 6.5
  let p0 : ℝ := 1013.25
  let h : ℝ := height * 0.001
  p0 * (1 - (gamma / t0) * h) ^ (g / (Rd * gamma))

/-- `dewpoint` (lines 239-260):
`val = np.log(e / sat_pressure_0c); return 243.5 * val / (17.67 - val)`. -/
def dewpoint (e : ℝ) : ℝ :=
  243.5 * Real.log (e / sat_pressure_0c) / (17.67 - Real.log (e / sat_pressure_0c))

/-- `saturation_vapor_pressure` (lines 455-478):
`sat_pressure_0c * np.exp(17.67 * (temperature - 273.15) / (temperature - 29.65))`. -/
def saturation_vapor_pressure (temperature : ℝ) : ℝ :=
  sat_pressure_0c * Real.exp (17.67 * (temperature - 273.15) / (temperature - 29.65))

/-- `dewpoint_rh` (lines 262-280): `dewpoint(rh * saturation_vapor_pressure(temperature))`. -/
def dewpoint_rh (temperature rh : ℝ) : ℝ :=
  dewpoint (rh * saturation_vapor_pressure temperature)

/-- `potential_temperature` (lines 282-312): `temperature * (P0 / pressure) ** kappa`. -/
def potential_temperature (pressure temperature : ℝ) : ℝ :=
  temperature * (P0 / pressure) ^ kappa

/-- `mixing_ratio` (lines 383-404): `epsilon * part_press / (tot_press - part_press)`. -/
def mixing_ratio (part_press tot_press : ℝ) : ℝ :=
  epsilon * part_press / (tot_press - part_press)

/-- `vapor_pressure` (lines 429-453): `pressure * mixing / (epsilon + mixing)`. -/
def vapor_pressure (pressure mixing : ℝ) : ℝ :=
  pressure * mixing / (epsilon + mixing)

/-- Modelled from the spec: the backend routine `MeteoMath.dewpoint2rh`
(from `org.meteoinfo.data.analysis.MeteoMath`, not under `src/`): spec
sections 4.1 and 9 prescribe a Bolton-type saturation-vapor-pressure curve
for the delegated humidity conversions, giving the standard closed form
`rh = 100 * es(dewpoint) / es(temp)` with
`es(t) = 6.112 * exp(17.67 * t / (t + 243.5))` for `t` in degrees Celsius. -/
def meteoMathDewpoint2rh (dp t : ℝ) : ℝ :=
  100 * (6.112 * Real.exp (17.67 * dp / (dp + 243.5))) /
    (6.112 * Real.exp (17.67 * t / (t + 243.5)))

/-- Array code path of `dewpoint2rh` (meteo.py line 212): the backend is
applied elementwise as `MeteoMath.dewpoint2rh(dewpoint.asarray(),
temp.asarray())` — dewpoint first, temperature second. -/
def dewpoint2rhArray (dps ts : List ℝ) : List ℝ :=
  List.zipWith (fun dp t => meteoMathDewpoint2rh dp t) dps ts

/-- Scalar code path of `dewpoint2rh` (meteo.py line 217): the backend is
called as `MeteoMath.dewpoint2rh(temp, dewpoint)` — temperature first,
dewpoint second, the reverse of the array path. -/
def dewpoint2rhScalar (dp t : ℝ) : ℝ :=
  meteoMathDewpoint2rh t dp

end ScalarFormulas

/-- A 2-D numeric array over `ℚ`, indexed by naturals; entries outside
`rows × cols` are irrelevant padding (kept `0` by the row-selection
operations so that equal submatrices are equal as values). -/
structure Mat where
  rows : ℕ
  cols : ℕ
  entry : ℕ → ℕ → ℚ

/-- Matrix transpose `x.T`. -/
def transposeM (A : Mat) : Mat :=
  ⟨A.cols, A.rows, fun i j => A.entry j i⟩

/-- Matrix product `np.dot`. -/
def mulM (A B : Mat) : Mat :=
  ⟨A.rows, B.cols, fun i j => ∑ k ∈ Finset.range A.cols, A.entry i k * B.entry k j⟩

/-- Scalar multiple of a matrix (used for the `/ n` scaling). -/
def scaleM (c : ℚ) (A : Mat) : Mat :=
  ⟨A.rows, A.cols, fun i j => c * A.entry i j⟩

/-- Column reversal `A[:, ::-1]`. -/
def revColsM (A : Mat) : Mat :=
  ⟨A.rows, A.cols, fun i j => A.entry i (A.cols - 1 - j)⟩

/-- Row reversal `A[::-1, :]`. -/
def revRowsM (A : Mat) : Mat :=
  ⟨A.rows, A.cols, fun i j => A.entry (A.rows - 1 - i) j⟩

/-- `nthD l i` is element `l[i]`, defaulting to `0` out of range. -/
def nthD : List ℕ → ℕ → ℕ
  | [], _ => 0
  | a :: _, 0 => a
  | _ :: l, k + 1 => nthD l k

/-- `posIn l i` is the position of the first occurrence of `i` in `l`. -/
def posIn : List ℕ → ℕ → Option ℕ
  | [], _ => none
  | a :: l, i => if a = i then some 0 else (posIn l i).map (· + 1)

/-- Modelled from the spec: the validity mask of the EOF engine.  The source
computes `valid_idx = np.where(x[:,0] != np.nan)[0]` through the
`mipylib.numeric` collaborator, which is not under `src/`; spec section 4.2
step 1 fixes the rule — a row is valid exactly when its column-0 entry
differs from the designated missing marker. -/
def validIdx (marker : ℚ) (x : Mat) : List ℕ :=
  (List.range x.rows).filter (fun i => decide (x.entry i 0 ≠ marker))

/-- Modelled from the spec: the `x.contains_nan()` test of the numeric
collaborator (not under `src/`); per spec section 4.2 step 1 the masking
path triggers when the first column carries the missing marker. -/
def hasMissing (marker : ℚ) (x : Mat) : Bool :=
  (List.range x.rows).any (fun i => decide (x.entry i 0 = marker))

/-- Row selection `xx = x[valid_idx, :]` (meteo.py line 538). -/
def selectRows (x : Mat) (idx : List ℕ) : Mat :=
  ⟨idx.length, x.cols, fun i j => if i < idx.length then x.entry (nthD idx i) j else 0⟩

/-- Restoration step of the EOF engine (lines 572-575):
`_A = np.ones(x.shape) * np.nan; _A[valid_idx, :] = -A`.  The k-th valid row
receives the negated k-th row of `A` (`valid_idx` is strictly increasing, so
the row at index `i` receives row `posIn valid_idx i` of `A`); every other
row is filled with the missing marker. -/
def scatterNeg (marker : ℚ) (x A : Mat) : Mat :=
  ⟨x.rows, x.cols, fun i j =>
    match posIn (validIdx marker x) i with
    | some k => -(A.entry k j)
    | none => marker⟩

/-- Default (eigen, non-transform) pathway of `eof` (lines 563-569):
`C = np.dot(xx, xx.T) / n; E, EOF = eig(C); PC = np.dot(EOF.T, xx);
EOF = EOF[:,::-1]; PC = PC[::-1,:]; E = E[::-1]`.  The eigendecomposition
`eig` is the abstract linear-algebra collaborator. -/
def eofDefault (eig : Mat → (ℕ → ℚ) × Mat) (xx : Mat) : Mat × (ℕ → ℚ) × Mat :=
  let C := scaleM ((xx.cols : ℚ))⁻¹ (mulM xx (transposeM xx))
  let r := eig C
  let PC := mulM (transposeM r.2) xx
  (revColsM r.2, fun i => r.1 (C.rows - 1 - i), revRowsM PC)

/-- `eof` (lines 522-578) under the default flags `svd=False`,
`transform=False`, with the missing-data masking (lines 535-541) and
restoration (lines 571-576). -/
def eof (eig : Mat → (ℕ → ℚ) × Mat) (marker : ℚ) (x : Mat) :
    Mat × (ℕ → ℚ) × Mat :=
  if hasMissing marker x then
    let xx := selectRows x (validIdx marker x)
    let r := eofDefault eig xx
    (scatterNeg marker x r.1, r.2.1, scatterNeg marker x r.2.2)
  else
    eofDefault eig x

/-- The reduced matrix with row 2 (0-indexed) removed. -/
def removeRow2 (x : Mat) : Mat :=
  ⟨x.rows - 1, x.cols, fun i j =>
    if i < x.rows - 1 then x.entry (if i < 2 then i else i + 1) j else 0⟩

/-- Per-column sums of squares,
`np.squeeze(np.dot(np.ones((1,p)), z**2))` (line 597). -/
def colSumSq {p nc : ℕ} (z : Matrix (Fin p) (Fin nc) ℚ) : Fin nc → ℚ :=
  fun j => ∑ i, z i j ^ 2

/-- One iteration body of the `varimax` loop (lines 596-601):
`z = np.dot(x, TT)`;
`B = np.dot(x.T, z**3 - np.dot(z, np.diag(colsums(z**2))) / p)`;
`U, S, Vh = svd(B)`; new `TT = np.dot(U, Vh)`; new `d = np.sum(S)`.
The SVD is the abstract linear-algebra collaborator. -/
def varimaxStep {p nc : ℕ}
    (svd : Matrix (Fin nc) (Fin nc) ℚ →
      Matrix (Fin nc) (Fin nc) ℚ × (Fin nc → ℚ) × Matrix (Fin nc) (Fin nc) ℚ)
    (x : Matrix (Fin p) (Fin nc) ℚ) (TT : Matrix (Fin nc) (Fin nc) ℚ) :
    Matrix (Fin nc) (Fin nc) ℚ × ℚ :=
  let z := x * TT
  let B := x.transpose *
    (z.map (fun a => a ^ 3) - (p : ℚ)⁻¹ • (z * Matrix.diagonal (colSumSq z)))
  let r := svd B
  (r.1 * r.2.2, ∑ j, r.2.1 j)

/-- The `varimax` iteration (lines 595-604) as fuel-indexed recursion on the
state `(TT, d, count)`, where `count` instruments the number of executed
iterations; the `break` on `d < d2 * (1 + tol)` is the early return. -/
def varimaxGo {p nc : ℕ}
    (svd : Matrix (Fin nc) (Fin nc) ℚ →
      Matrix (Fin nc) (Fin nc) ℚ × (Fin nc → ℚ) × Matrix (Fin nc) (Fin nc) ℚ)
    (x : Matrix (Fin p) (Fin nc) ℚ) (tol : ℚ) :
    ℕ → Matrix (Fin nc) (Fin nc) ℚ × ℚ × ℕ →
      Matrix (Fin nc) (Fin nc) ℚ × ℚ × ℕ
  | 0, s => s
  | fuel + 1, s =>
    let st := varimaxStep svd x s.1
    if st.2 < s.2.1 * (1 + tol) then (st.1, st.2, s.2.2 + 1)
    else varimaxGo svd x tol fuel (st.1, st.2, s.2.2 + 1)

/-- The `varimax` loop started from `TT = np.eye(nc)`, `d = 0`
(lines 593-594), running for at most `it_max` iterations. -/
def varimaxRun {p nc : ℕ}
    (svd : Matrix (Fin nc) (Fin nc) ℚ →
      Matrix (Fin nc) (Fin nc) ℚ × (Fin nc → ℚ) × Matrix (Fin nc) (Fin nc) ℚ)
    (x : Matrix (Fin p) (Fin nc) ℚ) (tol : ℚ) (it_max : ℕ) :
    Matrix (Fin nc) (Fin nc) ℚ × ℚ × ℕ :=
  varimaxGo svd x tol it_max (1, 0, 0)

/-- `varimax` (lines 580-608): returns `(np.dot(x, TT), TT)` for the final
`TT`.  The `normalize` flag is accepted, as in the source signature, and —
exactly as in the source — never read by the body. -/
def varimax {p nc : ℕ}
    (svd : Matrix (Fin nc) (Fin nc) ℚ →
      Matrix (Fin nc) (Fin nc) ℚ × (Fin nc → ℚ) × Matrix (Fin nc) (Fin nc) ℚ)
    (x : Matrix (Fin p) (Fin nc) ℚ) (normalize : Bool) (tol : ℚ)
    (it_max : ℕ) :
    Matrix (Fin p) (Fin nc) ℚ × Matrix (Fin nc) (Fin nc) ℚ :=
  let r := varimaxRun svd x tol it_max
  (x * r.1, r.1)

/-- The sequence of rotation matrices produced by successive iterations of
the `varimax` loop body (`TTseq _ _ 0` is the initial identity). -/
def TTseq {p nc : ℕ}
    (svd : Matrix (Fin nc) (Fin nc) ℚ →
      Matrix (Fin nc) (Fin nc) ℚ × (Fin nc → ℚ) × Matrix (Fin nc) (Fin nc) ℚ)
    (x : Matrix (Fin p) (Fin nc) ℚ) : ℕ → Matrix (Fin nc) (Fin nc) ℚ
  | 0 => 1
  | k + 1 => (varimaxStep svd x (TTseq svd x k)).1

/-- The sequence of singular-value sums `d` along the `varimax` loop
(`dseq _ _ 0 = 0` is the initial `d`). -/
def dseq {p nc : ℕ}
    (svd : Matrix (Fin nc) (Fin nc) ℚ →
      Matrix (Fin nc) (Fin nc) ℚ × (Fin nc → ℚ) × Matrix (Fin nc) (Fin nc) ℚ)
    (x : Matrix (Fin p) (Fin nc) ℚ) : ℕ → ℚ
  | 0 => 0
  | k + 1 => (varimaxStep svd x (TTseq svd x k)).2

/-- A trivial stand-in for the SVD collaborator, used only to instantiate
theorems at concrete inputs: it returns identity factors (which are
orthogonal) and singular values all equal to one. -/
def svdId (nc : ℕ) :
    Matrix (Fin nc) (Fin nc) ℚ →
      Matrix (Fin nc) (Fin nc) ℚ × (Fin nc → ℚ) × Matrix (Fin nc) (Fin nc) ℚ :=
  fun _ => (1, fun _ => 1, 1)

/-- A trivial stand-in for the eigendecomposition collaborator, used only to
instantiate theorems at concrete inputs. -/
def eigW : Mat → (ℕ → ℚ) × Mat := fun C => (fun _ => 0, C)

/-- A concrete 3-by-1 space-time matrix whose row 2 carries the marker `99`
in column 0, used only to instantiate theorems. -/
def xW : Mat := ⟨3, 1, fun i _ => if i = 2 then 99 else if i = 0 then 1 else 2⟩

end Meteo

namespace Meteo

/-- C9: composing the Bolton saturation-vapor-pressure formula with the
`dewpoint` inversion recovers the input temperature converted from Kelvin to
Celsius: for every `T ≠ 29.65`,
`dewpoint (saturation_vapor_pressure T) = T - 273.15`. -/
theorem dewpoint_saturation_vapor_pressure (T : ℝ) (hT : T ≠ 29.65) :
    dewpoint (saturation_vapor_pressure T) = T - 273.15 := by
  have hs : T - 29.65 ≠ 0 := sub_ne_zero_of_ne hT
  have hc : sat_pressure_0c ≠ 0 := by unfold sat_pressure_0c; norm_num
  unfold dewpoint saturation_vapor_pressure
  rw [mul_div_assoc, mul_div_cancel_left₀ _ hc, Real.log_exp]
  field_simp
  ring

/-- C9 witness: instantiation at `T = 273.15`. -/
theorem dewpoint_saturation_vapor_pressure_witness :
    (273.15 : ℝ) ≠ 29.65 ∧
      dewpoint (saturation_vapor_pressure 273.15) = 273.15 - 273.15 :=
  ⟨by norm_num, dewpoint_saturation_vapor_pressure 273.15 (by norm_num)⟩

/-- C10: `vapor_pressure` is the algebraic inverse of `mixing_ratio` in its
partial-pressure argument: for `p ≠ e` and `epsilon + mixing_ratio e p ≠ 0`,
`vapor_pressure p (mixing_ratio e p) = e`. -/
theorem vapor_pressure_mixing_ratio (e p : ℝ) (hpe : p ≠ e)
    (hden : epsilon + mixing_ratio e p ≠ 0) :
    vapor_pressure p (mixing_ratio e p) = e := by
  have heps : epsilon ≠ 0 := by unfold epsilon Mw Md; norm_num
  have hsub : p - e ≠ 0 := sub_ne_zero_of_ne hpe
  have hp : p ≠ 0 := by
    intro hp0
    apply hden
    have he : e ≠ 0 := fun he0 => hpe (hp0.trans he0.symm)
    unfold mixing_ratio
    rw [hp0, zero_sub, div_neg, mul_div_assoc, div_self he]
    ring
  have hkey : epsilon + mixing_ratio e p = epsilon * p / (p - e) := by
    unfold mixing_ratio
    field_simp
    ring
  unfold vapor_pressure
  rw [hkey]
  unfold mixing_ratio
  field_simp
  ring

/-- C10 witness: instantiation at `e = 1`, `p = 2`. -/
theorem vapor_pressure_mixing_ratio_witness :
    (2 : ℝ) ≠ 1 ∧ epsilon + mixing_ratio 1 2 ≠ 0 ∧
      vapor_pressure 2 (mixing_ratio 1 2) = 1 := by
  refine ⟨by norm_num, ?_, ?_⟩
  · unfold mixing_ratio epsilon Mw Md; norm_num
  · exact vapor_pressure_mixing_ratio 1 2 (by norm_num)
      (by unfold mixing_ratio epsilon Mw Md; norm_num)

/-- C5: for `p` in the range 100 to 1050 hPa,
`height_to_pressure_std (pressure_to_height_std p) = p` as an exact real
identity (hence within any relative tolerance, in particular 1e-6):
`height_to_pressure_std` converts meters to kilometers and applies the exact
algebraic inverse of `pressure_to_height_std`. -/
theorem height_pressure_round_trip (p : ℝ) (hlo : 100 ≤ p) (hhi : p ≤ 1050) :
    height_to_pressure_std (pressure_to_height_std p) = p := by
  have hp : (0 : ℝ) < p := lt_of_lt_of_le (by norm_num) hlo
  have hu : (0 : ℝ) ≤ p / 1013.25 := by positivity
  show (1013.25 : ℝ) *
      (1 - (6.5 / 288) * ((288 / 6.5) * (1 - (p / 1013.25) ^ (Rd * 6.5 / g)) * 1000 * 0.001)) ^
        (g / (Rd * 6.5)) = p
  have hg : g = (9.8 : ℝ) := rfl
  rw [hg]
  have hsimp : (1 : ℝ) - (6.5 / 288) *
      ((288 / 6.5) * (1 - (p / 1013.25) ^ (Rd * 6.5 / 9.8)) * 1000 * 0.001) =
      (p / 1013.25) ^ (Rd * 6.5 / 9.8) := by
    ring
  rw [hsimp, ← Real.rpow_mul hu]
  have hab : Rd * 6.5 / 9.8 * (9.8 / (Rd * 6.5)) = 1 := by
    unfold Rd R Md; norm_num
  rw [hab, Real.rpow_one, mul_comm,
    div_mul_cancel₀ _ (by norm_num : (1013.25 : ℝ) ≠ 0)]

/-- C5 witness: instantiation at `p = 1000`. -/
theorem height_pressure_round_trip_witness :
    (100 : ℝ) ≤ 1000 ∧ (1000 : ℝ) ≤ 1050 ∧
      height_to_pressure_std (pressure_to_height_std 1000) = 1000 :=
  ⟨by norm_num, by norm_num,
    height_pressure_round_trip 1000 (by norm_num) (by norm_num)⟩

/-- Closed form of `dewpoint_rh` with the logarithm of the product expanded;
helper shared by the dewpoint-vs-temperature statements. -/
theorem dewpoint_rh_eval (T rh : ℝ) (h0 : 0 < rh) :
    dewpoint_rh T rh =
      243.5 * (Real.log rh + 17.67 * (T - 273.15) / (T - 29.65)) /
        (17.67 - (Real.log rh + 17.67 * (T - 273.15) / (T - 29.65))) := by
  unfold dewpoint_rh dewpoint saturation_vapor_pressure sat_pressure_0c
  rw [show rh * (6.112 * Real.exp (17.67 * (T - 273.15) / (T - 29.65))) / 6.112
      = rh * Real.exp (17.67 * (T - 273.15) / (T - 29.65)) by ring,
    Real.log_mul (ne_of_gt h0) (Real.exp_ne_zero _), Real.log_exp]

/-- C7 counterexample: the claim "for every temperature `T` and every
`rh ∈ (0,1]`, `dewpoint_rh T rh ≤ T`" fails at the concrete input `T = 0`,
`rh = exp (-150)`: the relative humidity is in `(0,1]` but the computed
dewpoint is strictly greater than `T`. -/
theorem dewpoint_rh_le_counterexample :
    0 < Real.exp (-150 : ℝ) ∧ Real.exp (-150 : ℝ) ≤ 1 ∧
      ¬ dewpoint_rh 0 (Real.exp (-150 : ℝ)) ≤ 0 := by
  refine ⟨Real.exp_pos _, Real.exp_le_one_iff.mpr (by norm_num), ?_⟩
  rw [not_le, dewpoint_rh_eval 0 _ (Real.exp_pos _), Real.log_exp]
  norm_num

/-- C7 (amended): for every temperature `T` strictly above the Bolton-formula
singularity 29.65 and every relative humidity `rh` in `(0, 1]`,
`dewpoint_rh T rh ≤ T` (exactly, hence within floating tolerance). -/
theorem dewpoint_rh_le_temperature (T rh : ℝ) (hT : 29.65 < T)
    (h0 : 0 < rh) (h1 : rh ≤ 1) : dewpoint_rh T rh ≤ T := by
  have hs : (0 : ℝ) < T - 29.65 := by linarith
  have hL : Real.log rh ≤ 0 := Real.log_nonpos h0.le h1
  rw [dewpoint_rh_eval T rh h0]
  set L := Real.log rh
  have ht : 17.67 * (T - 273.15) / (T - 29.65)
      = 17.67 - 17.67 * 243.5 / (T - 29.65) := by
    field_simp
    ring
  rw [ht]
  have hu : (0 : ℝ) < 17.67 * 243.5 / (T - 29.65) := by positivity
  set u := 17.67 * 243.5 / (T - 29.65) with hudef
  have hsu : (T - 29.65) * u = 17.67 * 243.5 := by
    rw [hudef]
    field_simp
  have hden : (0 : ℝ) < 17.67 - (L + (17.67 - u)) := by linarith
  rw [div_le_iff hden]
  nlinarith [hsu, mul_nonneg (neg_nonneg.mpr hL) (show (0 : ℝ) ≤ T by linarith),
    hu.le]

/-- C7 witness for the amended theorem: instantiation at `T = 30`, `rh = 1`. -/
theorem dewpoint_rh_le_temperature_witness :
    (29.65 : ℝ) < 30 ∧ (0 : ℝ) < 1 ∧ (1 : ℝ) ≤ 1 ∧
      dewpoint_rh 30 1 ≤ 30 :=
  ⟨by norm_num, by norm_num, le_refl 1,
    dewpoint_rh_le_temperature 30 1 (by norm_num) (by norm_num) (le_refl 1)⟩

/-- Rational bracket for `log (5/4)` obtained from the degree-8 Taylor
polynomial of `log (1 - x)` at `x = -1/4`. -/
theorem log_five_quarters_bounds :
    (0.223137 : ℝ) ≤ Real.log (5 / 4) ∧ Real.log (5 / 4) ≤ 0.223149 := by
  have habs : |(-(1 / 4) : ℝ)| = 1 / 4 := by
    rw [abs_neg]
    exact abs_of_nonneg (by norm_num)
  have hlog1 := @Real.abs_log_sub_add_sum_range_le (-(1 / 4) : ℝ)
    (by rw [habs]; norm_num) 8
  rw [habs, show (1 : ℝ) - -(1 / 4) = 5 / 4 by norm_num] at hlog1
  have hsum : (∑ i ∈ Finset.range 8, (-(1 / 4) : ℝ) ^ (i + 1) / (i + 1))
      = -(12284087 / 55050240) := by
    norm_num [Finset.sum_range_succ]
  have hrhs : ((1 : ℝ) / 4) ^ 9 / (1 - 1 / 4) = 1 / 196608 := by norm_num
  rw [hsum, hrhs, abs_le] at hlog1
  constructor
  · linarith [hlog1.1]
  · linarith [hlog1.2]

/-- Rational bracket for `potential_temperature 800 273 = 273 * (5/4) ^ 0.286`,
via the `log (5/4)` bracket and degree-3 Taylor bounds on `exp`. -/
theorem potential_temperature_800_273_bounds :
    (290.9897 : ℝ) ≤ potential_temperature 800 273 ∧
      potential_temperature 800 273 ≤ 290.9911 := by
  have hrw : potential_temperature 800 273
      = 273 * Real.exp (Real.log (5 / 4) * 0.286) := by
    unfold potential_temperature P0 kappa
    rw [show (1000 : ℝ) / 800 = 5 / 4 by norm_num,
      Real.rpow_def_of_pos (by norm_num : (0 : ℝ) < 5 / 4)]
  obtain ⟨hlo, hhi⟩ := log_five_quarters_bounds
  have hxlo : (0.223137 : ℝ) * 0.286 ≤ Real.log (5 / 4) * 0.286 :=
    mul_le_mul_of_nonneg_right hlo (by norm_num)
  have hxhi : Real.log (5 / 4) * 0.286 ≤ (0.223149 : ℝ) * 0.286 :=
    mul_le_mul_of_nonneg_right hhi (by norm_num)
  constructor
  · have e1 : Real.exp ((0.223137 : ℝ) * 0.286)
        ≤ Real.exp (Real.log (5 / 4) * 0.286) := Real.exp_le_exp.mpr hxlo
    have e2 := Real.sum_le_exp_of_nonneg
      (show (0 : ℝ) ≤ 0.223137 * 0.286 by norm_num) 4
    have e3 : (∑ i ∈ Finset.range 4, ((0.223137 : ℝ) * 0.286) ^ i / i.factorial)
        ≥ 1.0658967 := by
      norm_num [Finset.sum_range_succ, Nat.factorial]
    rw [hrw]
    nlinarith [e1, e2, e3]
  · have e1 : Real.exp (Real.log (5 / 4) * 0.286)
        ≤ Real.exp ((0.223149 : ℝ) * 0.286) := Real.exp_le_exp.mpr hxhi
    have e2 := @Real.exp_bound' ((0.223149 : ℝ) * 0.286) (by norm_num)
      (by norm_num) 4 (by norm_num)
    have e3 : (∑ m ∈ Finset.range 4, ((0.223149 : ℝ) * 0.286) ^ m / m.factorial)
        + ((0.223149 : ℝ) * 0.286) ^ 4 * (4 + 1) / (Nat.factorial 4 * 4)
        ≤ 1.0659014 := by
      norm_num [Finset.sum_range_succ, Nat.factorial]
    rw [hrw]
    nlinarith [e1, e2, e3]

/-- C8 counterexample: the claim says
`potential_temperature 800 273 ≈ 290.966` (with `P0 = 1000`, `kappa = 0.286`),
but the value computed by the code is more than `1/50` away from `290.966`
(it lies in `[290.9897, 290.9911]`). -/
theorem potential_temperature_800_273_counterexample :
    (1 : ℝ) / 50 < |potential_temperature 800 273 - 290.966| := by
  obtain ⟨hlo, hhi⟩ := potential_temperature_800_273_bounds
  rw [abs_of_pos (by linarith)]
  linarith

/-- C8 (amended): `potential_temperature 800 273 = 290.99` up to `1/500`
(the exact value of `273 * (5/4) ^ 0.286` lies in `[290.9897, 290.9911]`),
and `saturation_vapor_pressure 273.15 = 6.112` exactly. -/
theorem potential_temperature_svp_concrete :
    |potential_temperature 800 273 - 290.99| ≤ 1 / 500 ∧
      saturation_vapor_pressure 273.15 = 6.112 := by
  constructor
  · obtain ⟨hlo, hhi⟩ := potential_temperature_800_273_bounds
    rw [abs_le]
    constructor <;> linarith
  · unfold saturation_vapor_pressure sat_pressure_0c
    rw [show (17.67 : ℝ) * (273.15 - 273.15) / (273.15 - 29.65) = 0 by norm_num,
      Real.exp_zero, mul_one]

/-- C6: the `normalize` parameter of `varimax` is accepted but has no effect
on the computation: for every SVD collaborator, input matrix, tolerance and
iteration bound, the outputs for `normalize = n1` and `normalize = n2`
coincide. -/
theorem varimax_normalize_no_effect {p nc : ℕ}
    (svd : Matrix (Fin nc) (Fin nc) ℚ →
      Matrix (Fin nc) (Fin nc) ℚ × (Fin nc → ℚ) × Matrix (Fin nc) (Fin nc) ℚ)
    (x : Matrix (Fin p) (Fin nc) ℚ) (n1 n2 : Bool) (tol : ℚ) (it_max : ℕ) :
    varimax svd x n1 tol it_max = varimax svd x n2 tol it_max := rfl

/-- C3: the array code path and the scalar code path of `dewpoint2rh`
disagree on the same logical input (dewpoint 0 °C, temperature 20 °C),
because the source passes the backend arguments in opposite orders on the
two paths (meteo.py line 212 versus line 217). -/
theorem dewpoint2rh_paths_differ :
    dewpoint2rhArray [0] [20] ≠ [dewpoint2rhScalar 0 20] := by
  have hE : 1 < Real.exp (17.67 * 20 / (20 + 243.5)) := by
    rw [show (1 : ℝ) = Real.exp 0 by rw [Real.exp_zero]]
    exact Real.exp_lt_exp.mpr (by norm_num)
  have hEpos : 0 < Real.exp (17.67 * 20 / (20 + 243.5)) := Real.exp_pos _
  simp only [dewpoint2rhArray, dewpoint2rhScalar, List.zipWith,
    meteoMathDewpoint2rh, ne_eq, List.cons.injEq, and_true]
  rw [show (17.67 : ℝ) * 0 / (0 + 243.5) = 0 by norm_num, Real.exp_zero]
  intro h
  rw [div_eq_div_iff (by positivity) (by norm_num)] at h
  nlinarith [h, hE, hEpos]

/-- Orthogonality is preserved by forming `U * Vh` from two matrices that
are orthogonal on the right. -/
theorem mul_transpose_orthogonal {nc : ℕ} (U V : Matrix (Fin nc) (Fin nc) ℚ)
    (hU : U * U.transpose = 1) (hV : V * V.transpose = 1) :
    (U * V) * (U * V).transpose = 1 := by
  rw [Matrix.transpose_mul, Matrix.mul_assoc, ← Matrix.mul_assoc V, hV,
    Matrix.one_mul, hU]

/-- Each `varimax` iteration re-orthogonalizes: the updated rotation matrix
`U * Vh` is orthogonal whenever the SVD collaborator returns orthogonal
factors. -/
theorem varimaxStep_orthogonal {p nc : ℕ}
    (svd : Matrix (Fin nc) (Fin nc) ℚ →
      Matrix (Fin nc) (Fin nc) ℚ × (Fin nc → ℚ) × Matrix (Fin nc) (Fin nc) ℚ)
    (x : Matrix (Fin p) (Fin nc) ℚ)
    (hsvd : ∀ B, (svd B).1 * ((svd B).1).transpose = 1 ∧
      (svd B).2.2 * ((svd B).2.2).transpose = 1)
    (TT : Matrix (Fin nc) (Fin nc) ℚ) :
    (varimaxStep svd x TT).1 * ((varimaxStep svd x TT).1).transpose = 1 := by
  obtain ⟨hU, hV⟩ := hsvd (x.transpose *
    ((x * TT).map (fun a => a ^ 3) -
      (p : ℚ)⁻¹ • ((x * TT) * Matrix.diagonal (colSumSq (x * TT)))))
  exact mul_transpose_orthogonal _ _ hU hV

/-- Unfolding equation for one step of the `varimax` loop. -/
theorem varimaxGo_succ {p nc : ℕ}
    (svd : Matrix (Fin nc) (Fin nc) ℚ →
      Matrix (Fin nc) (Fin nc) ℚ × (Fin nc → ℚ) × Matrix (Fin nc) (Fin nc) ℚ)
    (x : Matrix (Fin p) (Fin nc) ℚ) (tol : ℚ) (fuel : ℕ)
    (s : Matrix (Fin nc) (Fin nc) ℚ × ℚ × ℕ) :
    varimaxGo svd x tol (fuel + 1) s
      = if (varimaxStep svd x s.1).2 < s.2.1 * (1 + tol)
          then ((varimaxStep svd x s.1).1, (varimaxStep svd x s.1).2, s.2.2 + 1)
          else varimaxGo svd x tol fuel
            ((varimaxStep svd x s.1).1, (varimaxStep svd x s.1).2, s.2.2 + 1) := rfl

/-- The `varimax` loop preserves orthogonality of the `TT` component of its
state. -/
theorem varimaxGo_orthogonal {p nc : ℕ}
    (svd : Matrix (Fin nc) (Fin nc) ℚ →
      Matrix (Fin nc) (Fin nc) ℚ × (Fin nc → ℚ) × Matrix (Fin nc) (Fin nc) ℚ)
    (x : Matrix (Fin p) (Fin nc) ℚ)
    (hsvd : ∀ B, (svd B).1 * ((svd B).1).transpose = 1 ∧
      (svd B).2.2 * ((svd B).2.2).transpose = 1)
    (tol : ℚ) :
    ∀ fuel s, s.1 * (s.1).transpose = 1 →
      (varimaxGo svd x tol fuel s).1 * ((varimaxGo svd x tol fuel s).1).transpose = 1 := by
  intro fuel
  induction fuel with
  | zero => intro s hs; exact hs
  | succ n ih =>
    intro s hs
    rw [varimaxGo_succ]
    split
    · exact varimaxStep_orthogonal svd x hsvd s.1
    · exact ih _ (varimaxStep_orthogonal svd x hsvd s.1)

/-- C2: for every input matrix, every `it_max ≥ 1` and every SVD
collaborator returning orthogonal factors, the rotation matrix returned by
`varimax` satisfies `TT * TTᵀ = 1` exactly (hence within floating
tolerance), and the same orthogonality invariant holds for the `TT` value
after every iteration of the loop (each element of the iterate sequence
`TTseq`), not only at termination. -/
theorem varimax_rotation_orthogonal {p nc : ℕ}
    (svd : Matrix (Fin nc) (Fin nc) ℚ →
      Matrix (Fin nc) (Fin nc) ℚ × (Fin nc → ℚ) × Matrix (Fin nc) (Fin nc) ℚ)
    (x : Matrix (Fin p) (Fin nc) ℚ) (normalize : Bool) (tol : ℚ) (it_max : ℕ)
    (hsvd : ∀ B, (svd B).1 * ((svd B).1).transpose = 1 ∧
      (svd B).2.2 * ((svd B).2.2).transpose = 1)
    (hit : 1 ≤ it_max) :
    (varimax svd x normalize tol it_max).2 *
        ((varimax svd x normalize tol it_max).2).transpose = 1 ∧
      ∀ k, TTseq svd x k * (TTseq svd x k).transpose = 1 := by
  constructor
  · exact varimaxGo_orthogonal svd x hsvd tol it_max (1, 0, 0)
      (by rw [Matrix.transpose_one, Matrix.one_mul])
  · intro k
    cases k with
    | zero => rw [TTseq, Matrix.transpose_one, Matrix.one_mul]
    | succ n => exact varimaxStep_orthogonal svd x hsvd (TTseq svd x n)

/-- C2 witness: instantiation at the trivial orthogonal SVD stand-in, a
concrete 1-by-1 matrix, and `it_max = 1`. -/
theorem varimax_rotation_orthogonal_witness :
    (∀ B : Matrix (Fin 1) (Fin 1) ℚ,
        (svdId 1 B).1 * ((svdId 1 B).1).transpose = 1 ∧
        (svdId 1 B).2.2 * ((svdId 1 B).2.2).transpose = 1) ∧
    (1 : ℕ) ≤ 1 ∧
    ((varimax (svdId 1) (1 : Matrix (Fin 1) (Fin 1) ℚ) false 0 1).2 *
        ((varimax (svdId 1) (1 : Matrix (Fin 1) (Fin 1) ℚ) false 0 1).2).transpose = 1 ∧
      ∀ k, TTseq (svdId 1) (1 : Matrix (Fin 1) (Fin 1) ℚ) k *
        (TTseq (svdId 1) (1 : Matrix (Fin 1) (Fin 1) ℚ) k).transpose = 1) :=
  ⟨fun B => ⟨by simp [svdId], by simp [svdId]⟩, le_refl 1,
    varimax_rotation_orthogonal (svdId 1) 1 false 0 1
      (fun B => ⟨by simp [svdId], by simp [svdId]⟩) (le_refl 1)⟩

/-- Unfolding equation for one step of the `varimax` loop, state given as an
explicit triple. -/
theorem varimaxGo_succ_mk {p nc : ℕ}
    (svd : Matrix (Fin nc) (Fin nc) ℚ →
      Matrix (Fin nc) (Fin nc) ℚ × (Fin nc → ℚ) × Matrix (Fin nc) (Fin nc) ℚ)
    (x : Matrix (Fin p) (Fin nc) ℚ) (tol : ℚ) (fuel : ℕ)
    (TT : Matrix (Fin nc) (Fin nc) ℚ) (d : ℚ) (c : ℕ) :
    varimaxGo svd x tol (fuel + 1) (TT, d, c)
      = if (varimaxStep svd x TT).2 < d * (1 + tol)
          then ((varimaxStep svd x TT).1, (varimaxStep svd x TT).2, c + 1)
          else varimaxGo svd x tol fuel
            ((varimaxStep svd x TT).1, (varimaxStep svd x TT).2, c + 1) := rfl

/-- Full characterization of the `varimax` loop run from the `j`-th iterate:
it performs some number `c ≤ fuel` of further iterations, lands on the
`(j+c)`-th iterate, never saw the exit condition hold strictly before its
last executed iteration, and either exhausted its fuel or stopped because the
exit condition held at the last executed iteration. -/
theorem varimaxGo_spec {p nc : ℕ}
    (svd : Matrix (Fin nc) (Fin nc) ℚ →
      Matrix (Fin nc) (Fin nc) ℚ × (Fin nc → ℚ) × Matrix (Fin nc) (Fin nc) ℚ)
    (x : Matrix (Fin p) (Fin nc) ℚ) (tol : ℚ) :
    ∀ fuel j, ∃ c,
      varimaxGo svd x tol fuel (TTseq svd x j, dseq svd x j, j)
        = (TTseq svd x (j + c), dseq svd x (j + c), j + c) ∧
      c ≤ fuel ∧
      (∀ t, t + 1 < c →
        ¬ dseq svd x (j + t + 1) < dseq svd x (j + t) * (1 + tol)) ∧
      (c = fuel ∨ (1 ≤ c ∧
        dseq svd x (j + c) < dseq svd x (j + c - 1) * (1 + tol))) := by
  intro fuel
  induction fuel with
  | zero =>
    intro j
    exact ⟨0, by simp [varimaxGo], Nat.le_refl 0,
      fun t ht => absurd ht (by omega), Or.inl rfl⟩
  | succ n ih =>
    intro j
    have h1 : (varimaxStep svd x (TTseq svd x j)).1 = TTseq svd x (j + 1) := rfl
    have h2 : (varimaxStep svd x (TTseq svd x j)).2 = dseq svd x (j + 1) := rfl
    rw [varimaxGo_succ_mk, h1, h2]
    by_cases h : dseq svd x (j + 1) < dseq svd x j * (1 + tol)
    · rw [if_pos h]
      refine ⟨1, rfl, by omega, fun t ht => absurd ht (by omega),
        Or.inr ⟨le_refl 1, ?_⟩⟩
      simpa using h
    · rw [if_neg h]
      obtain ⟨c, hc1, hc2, hc3, hc4⟩ := ih (j + 1)
      refine ⟨c + 1, ?_, by omega, ?_, ?_⟩
      · rw [hc1, show j + 1 + c = j + (c + 1) by omega]
      · intro t ht
        cases t with
        | zero => simpa using h
        | succ u =>
          have h5 := hc3 u (by omega)
          rw [show j + (u + 1) + 1 = j + 1 + u + 1 by omega,
            show j + (u + 1) = j + 1 + u by omega]
          exact h5
      · rcases hc4 with h4 | ⟨h41, h42⟩
        · exact Or.inl (by omega)
        · refine Or.inr ⟨by omega, ?_⟩
          rw [show j + (c + 1) = j + 1 + c by omega]
          exact h42

/-- C4: for every input matrix, tolerance and `it_max ≥ 1`, the `varimax`
loop starting from `TT = identity`, `d = 0` executes at most `it_max`
iterations (count instrumented by `varimaxRun`); its final `TT` and `d` are
the corresponding iterates; no iteration strictly before the last executed
one satisfied the exit test `d < d_prev * (1 + tol)`; the loop ended either
by exhausting `it_max` or because the exit test held at the last executed
iteration; a positive `d` on iteration 1 never triggers the exit (since
`d_prev = 0` there); and the returned rotated matrix is `x * TT` for the
final `TT`. -/
theorem varimax_loop_spec {p nc : ℕ}
    (svd : Matrix (Fin nc) (Fin nc) ℚ →
      Matrix (Fin nc) (Fin nc) ℚ × (Fin nc → ℚ) × Matrix (Fin nc) (Fin nc) ℚ)
    (x : Matrix (Fin p) (Fin nc) ℚ) (normalize : Bool) (tol : ℚ)
    (it_max : ℕ) (hit : 1 ≤ it_max) :
    (varimaxRun svd x tol it_max).2.2 ≤ it_max ∧
    (varimaxRun svd x tol it_max).1
      = TTseq svd x ((varimaxRun svd x tol it_max).2.2) ∧
    (varimaxRun svd x tol it_max).2.1
      = dseq svd x ((varimaxRun svd x tol it_max).2.2) ∧
    (∀ k, k + 1 < (varimaxRun svd x tol it_max).2.2 →
      ¬ dseq svd x (k + 1) < dseq svd x k * (1 + tol)) ∧
    ((varimaxRun svd x tol it_max).2.2 = it_max ∨
      (1 ≤ (varimaxRun svd x tol it_max).2.2 ∧
        dseq svd x ((varimaxRun svd x tol it_max).2.2)
          < dseq svd x ((varimaxRun svd x tol it_max).2.2 - 1) * (1 + tol))) ∧
    (0 < dseq svd x 1 → ¬ dseq svd x 1 < dseq svd x 0 * (1 + tol)) ∧
    varimax svd x normalize tol it_max
      = (x * (varimaxRun svd x tol it_max).1, (varimaxRun svd x tol it_max).1) := by
  obtain ⟨c, hc1, hc2, hc3, hc4⟩ := varimaxGo_spec svd x tol it_max 0
  simp only [Nat.zero_add] at hc1 hc3 hc4
  have hrun : varimaxRun svd x tol it_max
      = (TTseq svd x c, dseq svd x c, c) := hc1
  have hG : varimax svd x normalize tol it_max
      = (x * (varimaxRun svd x tol it_max).1, (varimaxRun svd x tol it_max).1) := rfl
  rw [hrun] at hG ⊢
  refine ⟨hc2, rfl, rfl, hc3, hc4, ?_, hG⟩
  intro hd
  have hz : dseq svd x 0 = 0 := rfl
  rw [hz, zero_mul]
  exact not_lt.mpr hd.le

/-- C4 witness: instantiation at the trivial SVD stand-in, a concrete 1-by-1
matrix, `tol = 0` and `it_max = 1`. -/
theorem varimax_loop_spec_witness :
    (1 : ℕ) ≤ 1 ∧
    ((varimaxRun (svdId 1) (1 : Matrix (Fin 1) (Fin 1) ℚ) 0 1).2.2 ≤ 1 ∧
    (varimaxRun (svdId 1) (1 : Matrix (Fin 1) (Fin 1) ℚ) 0 1).1
      = TTseq (svdId 1) (1 : Matrix (Fin 1) (Fin 1) ℚ)
          ((varimaxRun (svdId 1) (1 : Matrix (Fin 1) (Fin 1) ℚ) 0 1).2.2) ∧
    (varimaxRun (svdId 1) (1 : Matrix (Fin 1) (Fin 1) ℚ) 0 1).2.1
      = dseq (svdId 1) (1 : Matrix (Fin 1) (Fin 1) ℚ)
          ((varimaxRun (svdId 1) (1 : Matrix (Fin 1) (Fin 1) ℚ) 0 1).2.2) ∧
    (∀ k, k + 1 < (varimaxRun (svdId 1) (1 : Matrix (Fin 1) (Fin 1) ℚ) 0 1).2.2 →
      ¬ dseq (svdId 1) (1 : Matrix (Fin 1) (Fin 1) ℚ) (k + 1)
        < dseq (svdId 1) (1 : Matrix (Fin 1) (Fin 1) ℚ) k * (1 + 0)) ∧
    ((varimaxRun (svdId 1) (1 : Matrix (Fin 1) (Fin 1) ℚ) 0 1).2.2 = 1 ∨
      (1 ≤ (varimaxRun (svdId 1) (1 : Matrix (Fin 1) (Fin 1) ℚ) 0 1).2.2 ∧
        dseq (svdId 1) (1 : Matrix (Fin 1) (Fin 1) ℚ)
            ((varimaxRun (svdId 1) (1 : Matrix (Fin 1) (Fin 1) ℚ) 0 1).2.2)
          < dseq (svdId 1) (1 : Matrix (Fin 1) (Fin 1) ℚ)
              ((varimaxRun (svdId 1) (1 : Matrix (Fin 1) (Fin 1) ℚ) 0 1).2.2 - 1)
              * (1 + 0))) ∧
    (0 < dseq (svdId 1) (1 : Matrix (Fin 1) (Fin 1) ℚ) 1 →
      ¬ dseq (svdId 1) (1 : Matrix (Fin 1) (Fin 1) ℚ) 1
        < dseq (svdId 1) (1 : Matrix (Fin 1) (Fin 1) ℚ) 0 * (1 + 0)) ∧
    varimax (svdId 1) (1 : Matrix (Fin 1) (Fin 1) ℚ) false 0 1
      = ((1 : Matrix (Fin 1) (Fin 1) ℚ) *
          (varimaxRun (svdId 1) (1 : Matrix (Fin 1) (Fin 1) ℚ) 0 1).1,
        (varimaxRun (svdId 1) (1 : Matrix (Fin 1) (Fin 1) ℚ) 0 1).1)) :=
  ⟨le_refl 1,
    varimax_loop_spec (svdId 1) (1 : Matrix (Fin 1) (Fin 1) ℚ) false 0 1 (le_refl 1)⟩

/-- Indexing into an appended list. -/
theorem nthD_append (l1 l2 : List ℕ) :
    ∀ i, nthD (l1 ++ l2) i
      = if i < l1.length then nthD l1 i else nthD l2 (i - l1.length) := by
  induction l1 with
  | nil => intro i; simp [nthD]
  | cons a l ih =>
    intro i
    cases i with
    | zero => simp [nthD]
    | succ k =>
      simp only [List.cons_append, nthD, List.length_cons, Nat.succ_sub_succ,
        add_lt_add_iff_right]
      exact ih k

/-- Indexing into a list shifted by a constant. -/
theorem nthD_map_add (c : ℕ) (l : List ℕ) :
    ∀ i, nthD (l.map (fun t => t + c)) i
      = if i < l.length then nthD l i + c else 0 := by
  induction l with
  | nil => intro i; simp [nthD]
  | cons a l ih =>
    intro i
    cases i with
    | zero => simp [nthD]
    | succ k =>
      simp only [List.map_cons, nthD, List.length_cons, add_lt_add_iff_right]
      exact ih k

/-- Indexing into `List.range`. -/
theorem nthD_range (k : ℕ) : ∀ i, nthD (List.range k) i = if i < k then i else 0 := by
  induction k with
  | zero => intro i; simp [List.range_zero, nthD]
  | succ n ih =>
    intro i
    rw [List.range_succ, nthD_append, List.length_range]
    by_cases h1 : i < n
    · rw [if_pos h1, ih i, if_pos h1, if_pos (by omega)]
    · rw [if_neg h1]
      by_cases h2 : i = n
      · subst h2
        simp [nthD]
      · have h4 : i - n = i - n - 1 + 1 := by omega
        rw [h4]
        simp only [nthD]
        rw [if_neg (by omega)]

/-- Position lookup in an appended list: hit in the left part. -/
theorem posIn_append_left (l2 l1 : List ℕ) (i : ℕ) :
    ∀ k, posIn l1 i = some k → posIn (l1 ++ l2) i = some k := by
  induction l1 with
  | nil => intro k h; simp [posIn] at h
  | cons a l ih =>
    intro k h
    rw [posIn] at h
    rw [List.cons_append, posIn]
    by_cases ha : a = i
    · rw [if_pos ha] at h ⊢
      exact h
    · rw [if_neg ha] at h ⊢
      cases hp : posIn l i with
      | none => rw [hp] at h; exact absurd h (by simp)
      | some k2 =>
        rw [hp] at h
        rw [ih k2 hp]
        exact h

/-- Position lookup in an appended list: miss in the left part. -/
theorem posIn_append_right (l2 l1 : List ℕ) (i : ℕ) (h : posIn l1 i = none) :
    posIn (l1 ++ l2) i = (posIn l2 i).map (fun t => t + l1.length) := by
  induction l1 with
  | nil =>
    rw [List.nil_append, List.length_nil]
    cases hq : posIn l2 i with
    | none => rfl
    | some q => simp
  | cons a l ih =>
    rw [posIn] at h
    by_cases ha : a = i
    · rw [if_pos ha] at h
      exact absurd h (by simp)
    · rw [if_neg ha] at h
      have hl : posIn l i = none := by
        cases hp : posIn l i with
        | none => rfl
        | some k2 => rw [hp] at h; simp at h
      rw [List.cons_append, posIn, if_neg ha, ih hl, List.length_cons]
      cases hq : posIn l2 i with
      | none => rfl
      | some q =>
        simp only [Option.map_some', Option.some.injEq]
        omega

/-- Position lookup in a list shifted by a constant. -/
theorem posIn_map_add (c : ℕ) (l : List ℕ) :
    ∀ i, posIn (l.map (fun t => t + c)) i
      = if c ≤ i then posIn l (i - c) else none := by
  induction l with
  | nil =>
    intro i
    rw [List.map_nil]
    split <;> rfl
  | cons a l ih =>
    intro i
    simp only [List.map_cons, posIn]
    by_cases h : a + c = i
    · rw [if_pos h, if_pos (show c ≤ i by omega), if_pos (show a = i - c by omega)]
    · rw [if_neg h, ih i]
      by_cases hc : c ≤ i
      · rw [if_pos hc, if_pos hc, if_neg (show ¬ a = i - c by omega)]
      · rw [if_neg hc, if_neg hc]
        rfl

/-- Position lookup in `List.range`. -/
theorem posIn_range (k : ℕ) :
    ∀ i, posIn (List.range k) i = if i < k then some i else none := by
  induction k with
  | zero =>
    intro i
    rw [List.range_zero, if_neg (by omega)]
    rfl
  | succ n ih =>
    intro i
    rw [List.range_succ]
    by_cases h1 : i < n
    · rw [posIn_append_left [n] (List.range n) i i (by rw [ih i, if_pos h1]),
        if_pos (by omega)]
    · rw [posIn_append_right [n] (List.range n) i (by rw [ih i, if_neg h1]),
        List.length_range]
      by_cases h2 : i = n
      · subst h2
        rw [if_pos (by omega), posIn, if_pos rfl]
        simp
      · rw [if_neg (by omega), posIn, if_neg (Ne.symm h2)]
        rfl

/-- The indices of `List.range (k + 3)` that differ from 2, in order. -/
theorem range_filter_ne_two (k : ℕ) :
    (List.range (k + 3)).filter (fun i => decide (i ≠ 2))
      = [0, 1] ++ (List.range k).map (fun t => t + 3) := by
  induction k with
  | zero => decide
  | succ n ih =>
    rw [show n + 1 + 3 = n + 3 + 1 by omega, List.range_succ, List.filter_append,
      ih, List.range_succ, List.map_append, List.append_assoc]
    congr 2

/-- Indexing formula for the valid-row list `[0, 1] ++ [3, …, k + 2]`. -/
theorem nthD_valid_list (k i : ℕ) :
    nthD ([0, 1] ++ (List.range k).map (fun t => t + 3)) i
      = if i < k + 2 then (if i < 2 then i else i + 1) else 0 := by
  rcases i with _ | _ | m
  · rw [if_pos (by omega), if_pos (by omega)]
    rfl
  · rw [if_pos (by omega), if_pos (by omega)]
    rfl
  · show nthD ((List.range k).map (fun t => t + 3)) m = _
    rw [nthD_map_add, nthD_range, List.length_range]
    split_ifs <;> omega

/-- Position formula for the valid-row list `[0, 1] ++ [3, …, k + 2]`. -/
theorem posIn_valid_list (k i : ℕ) :
    posIn ([0, 1] ++ (List.range k).map (fun t => t + 3)) i
      = if i < k + 3 ∧ i ≠ 2 then some (if i < 2 then i else i - 1) else none := by
  rcases i with _ | _ | _ | m
  · rw [if_pos ⟨by omega, by omega⟩]
    rfl
  · rw [if_pos ⟨by omega, by omega⟩]
    rfl
  · rw [if_neg (by omega)]
    show ((posIn ((List.range k).map (fun t => t + 3)) 2).map _).map _ = none
    rw [posIn_map_add, if_neg (by omega)]
    rfl
  · show ((posIn ((List.range k).map (fun t => t + 3)) (m + 3)).map _).map _ = _
    rw [posIn_map_add, if_pos (by omega), show m + 3 - 3 = m by omega,
      posIn_range]
    by_cases hk : m < k
    · rw [if_pos hk, if_pos (by omega), if_neg (by omega)]
      simp only [Option.map_some', Option.some.injEq]
      omega
    · rw [if_neg hk, if_neg (by omega)]
      rfl

/-- Under the hypotheses of the row-2 scenario, the valid-row list of `x` is
exactly `[0, 1] ++ [3, …, x.rows - 1]`. -/
theorem validIdx_eq (marker : ℚ) (x : Mat) (h3 : 3 ≤ x.rows)
    (h2 : x.entry 2 0 = marker)
    (hv : ∀ i, i < x.rows → i ≠ 2 → x.entry i 0 ≠ marker) :
    validIdx marker x = [0, 1] ++ (List.range (x.rows - 3)).map (fun t => t + 3) := by
  unfold validIdx
  have hcongr : (List.range x.rows).filter (fun i => decide (x.entry i 0 ≠ marker))
      = (List.range x.rows).filter (fun i => decide (i ≠ 2)) := by
    apply List.filter_congr
    intro i hi
    simp only [List.mem_range] at hi
    by_cases h : i = 2
    · subst h
      simp [h2]
    · simp [h, hv i hi h]
  have hfil := range_filter_ne_two (x.rows - 3)
  rw [show x.rows - 3 + 3 = x.rows by omega] at hfil
  rw [hcongr, hfil]

/-- The valid-row list of the row-2 scenario has `x.rows - 1` elements. -/
theorem validIdx_length (marker : ℚ) (x : Mat) (h3 : 3 ≤ x.rows)
    (h2 : x.entry 2 0 = marker)
    (hv : ∀ i, i < x.rows → i ≠ 2 → x.entry i 0 ≠ marker) :
    (validIdx marker x).length = x.rows - 1 := by
  rw [validIdx_eq marker x h3 h2 hv]
  simp only [List.length_append, List.length_cons, List.length_nil,
    List.length_map, List.length_range]
  omega

/-- In the row-2 scenario, selecting the valid rows of `x` is exactly
removing row 2. -/
theorem selectRows_validIdx (marker : ℚ) (x : Mat) (h3 : 3 ≤ x.rows)
    (h2 : x.entry 2 0 = marker)
    (hv : ∀ i, i < x.rows → i ≠ 2 → x.entry i 0 ≠ marker) :
    selectRows x (validIdx marker x) = removeRow2 x := by
  have hlen := validIdx_length marker x h3 h2 hv
  unfold selectRows removeRow2
  rw [Mat.mk.injEq]
  refine ⟨hlen, rfl, ?_⟩
  funext i j
  rw [hlen, validIdx_eq marker x h3 h2 hv, nthD_valid_list]
  by_cases hi : i < x.rows - 1
  · rw [if_pos hi, if_pos hi, if_pos (by omega)]
  · rw [if_neg hi, if_neg hi]

/-- In the row-2 scenario the masking test on `x` fires. -/
theorem hasMissing_true (marker : ℚ) (x : Mat) (h3 : 3 ≤ x.rows)
    (h2 : x.entry 2 0 = marker) : hasMissing marker x = true := by
  unfold hasMissing
  rw [List.any_eq_true]
  exact ⟨2, by rw [List.mem_range]; omega, by simp [h2]⟩

/-- In the row-2 scenario the reduced matrix contains no missing marker in
column 0, so the masking test on it does not fire. -/
theorem hasMissing_removeRow2_false (marker : ℚ) (x : Mat) (h3 : 3 ≤ x.rows)
    (hv : ∀ i, i < x.rows → i ≠ 2 → x.entry i 0 ≠ marker) :
    hasMissing marker (removeRow2 x) = false := by
  unfold hasMissing removeRow2
  rw [List.any_eq_false]
  intro i hi
  simp only [List.mem_range] at hi
  simp only [if_pos hi, ne_eq, decide_eq_true_eq]
  by_cases hlt : i < 2
  · rw [if_pos hlt]
    exact hv i (by omega) (by omega)
  · rw [if_neg hlt]
    exact hv (i + 1) (by omega) (by omega)

/-- Position of a valid row inside the valid-row list of the row-2 scenario. -/
theorem posIn_validIdx (marker : ℚ) (x : Mat) (h3 : 3 ≤ x.rows)
    (h2 : x.entry 2 0 = marker)
    (hv : ∀ i, i < x.rows → i ≠ 2 → x.entry i 0 ≠ marker) (i : ℕ) :
    posIn (validIdx marker x) i
      = if i < x.rows ∧ i ≠ 2 then some (if i < 2 then i else i - 1) else none := by
  rw [validIdx_eq marker x h3 h2 hv, posIn_valid_list,
    show x.rows - 3 + 3 = x.rows by omega]

/-- C1: for a 2-D matrix `x` whose row 2 (0-indexed) carries the missing
marker in column 0 and whose other rows do not (validity is decided by
column 0 only), `eof` returns EOF and PC matrices whose row 2 is filled with
the missing marker and whose every other row `i` equals `-1` times row
`i` (for `i < 2`) resp. `i - 1` (for `i > 2`) of the result of `eof` applied
to the reduced matrix with row 2 removed — for any eigendecomposition
collaborator `eig`. -/
theorem eof_missing_row2 (eig : Mat → (ℕ → ℚ) × Mat) (marker : ℚ) (x : Mat)
    (h3 : 3 ≤ x.rows) (h2 : x.entry 2 0 = marker)
    (hv : ∀ i, i < x.rows → i ≠ 2 → x.entry i 0 ≠ marker) :
    (∀ j, (eof eig marker x).1.entry 2 j = marker) ∧
    (∀ j, (eof eig marker x).2.2.entry 2 j = marker) ∧
    (∀ i, i < x.rows → i ≠ 2 → ∀ j,
      (eof eig marker x).1.entry i j
        = -((eof eig marker (removeRow2 x)).1.entry (if i < 2 then i else i - 1) j) ∧
      (eof eig marker x).2.2.entry i j
        = -((eof eig marker (removeRow2 x)).2.2.entry (if i < 2 then i else i - 1) j)) := by
  have hx : eof eig marker x
      = (scatterNeg marker x (eofDefault eig (removeRow2 x)).1,
          (eofDefault eig (removeRow2 x)).2.1,
          scatterNeg marker x (eofDefault eig (removeRow2 x)).2.2) := by
    unfold eof
    rw [hasMissing_true marker x h3 h2, selectRows_validIdx marker x h3 h2 hv]
    simp
  have hr : eof eig marker (removeRow2 x) = eofDefault eig (removeRow2 x) := by
    unfold eof
    rw [hasMissing_removeRow2_false marker x h3 hv]
    simp
  refine ⟨?_, ?_, ?_⟩
  · intro j
    rw [hx]
    show (match posIn (validIdx marker x) 2 with
      | some k => -((eofDefault eig (removeRow2 x)).1.entry k j)
      | none => marker) = marker
    rw [posIn_validIdx marker x h3 h2 hv 2, if_neg (by simp)]
  · intro j
    rw [hx]
    show (match posIn (validIdx marker x) 2 with
      | some k => -((eofDefault eig (removeRow2 x)).2.2.entry k j)
      | none => marker) = marker
    rw [posIn_validIdx marker x h3 h2 hv 2, if_neg (by simp)]
  · intro i hi hne j
    rw [hx, hr]
    constructor
    · show (match posIn (validIdx marker x) i with
        | some k => -((eofDefault eig (removeRow2 x)).1.entry k j)
        | none => marker) = _
      rw [posIn_validIdx marker x h3 h2 hv i, if_pos ⟨hi, hne⟩]
    · show (match posIn (validIdx marker x) i with
        | some k => -((eofDefault eig (removeRow2 x)).2.2.entry k j)
        | none => marker) = _
      rw [posIn_validIdx marker x h3 h2 hv i, if_pos ⟨hi, hne⟩]

/-- C1 witness: instantiation at the stand-in eigendecomposition, marker 99
and the concrete matrix `xW` (rows `1, 2, 99`). -/
theorem eof_missing_row2_witness :
    (3 ≤ xW.rows ∧ xW.entry 2 0 = 99 ∧
      (∀ i, i < xW.rows → i ≠ 2 → xW.entry i 0 ≠ 99)) ∧
    ((∀ j, (eof eigW 99 xW).1.entry 2 j = 99) ∧
      (∀ j, (eof eigW 99 xW).2.2.entry 2 j = 99) ∧
      (∀ i, i < xW.rows → i ≠ 2 → ∀ j,
        (eof eigW 99 xW).1.entry i j
          = -((eof eigW 99 (removeRow2 xW)).1.entry (if i < 2 then i else i - 1) j) ∧
        (eof eigW 99 xW).2.2.entry i j
          = -((eof eigW 99 (removeRow2 xW)).2.2.entry (if i < 2 then i else i - 1) j))) :=
  have hv : ∀ i, i < xW.rows → i ≠ 2 → xW.entry i 0 ≠ 99 := by
    intro i hi hne
    simp only [show xW.rows = 3 from rfl] at hi
    interval_cases i
    · norm_num [xW]
    · norm_num [xW]
    · exact absurd rfl hne
  ⟨⟨Nat.le_refl 3, rfl, hv⟩, eof_missing_row2 eigW 99 xW (Nat.le_refl 3) rfl hv⟩

end Meteo
